import Mathlib

/-!
Shallow embedding of the particle simulation core of `main.js`
(Cosmic Nebula Heart): the heart-curve sampler `getHeartPoint`,
the per-particle initializer of `createParticleSystem`, the impulse
generator `explode`, and the per-frame integrator `animateSystem`.

JavaScript numbers are modelled as real numbers; each `Math.random()`
call site is an explicit real parameter, valid draws lying in [0, 1).
-/

noncomputable section

/-- A 3-component vector (position, velocity or target of one particle). -/
structure Vec3 where
  x : ℝ
  y : ℝ
  z : ℝ

/-- An RGB colour, components in [0,1] as THREE.Color stores them. -/
structure Color3 where
  r : ℝ
  g : ℝ
  b : ℝ

/-- `THREE.Color.lerp(other, alpha)`: each component moves a fraction
`alpha` of the way toward `other`. -/
def lerpC (c other : Color3) (alpha : ℝ) : Color3 :=
  ⟨c.r + (other.r - c.r) * alpha,
   c.g + (other.g - c.g) * alpha,
   c.b + (other.b - c.b) * alpha⟩

/-- `THREE.Color.multiplyScalar(s)`. -/
def smulC (c : Color3) (s : ℝ) : Color3 :=
  ⟨c.r * s, c.g * s, c.b * s⟩

/-- CONFIG.colors.inner = 0x00eaff. -/
def innerColor : Color3 := ⟨0, 234 / 255, 1⟩

/-- CONFIG.colors.core = 0xff0055. -/
def coreColor : Color3 := ⟨1, 0, 85 / 255⟩

/-- CONFIG.colors.outer = 0xffaa00. -/
def outerColor : Color3 := ⟨1, 170 / 255, 0⟩

/-- CONFIG.colors.aura = 0xaa00ff. -/
def auraColor : Color3 := ⟨170 / 255, 0, 1⟩

/-- `new THREE.Color('white')`. -/
def whiteColor : Color3 := ⟨1, 1, 1⟩

/-- CONFIG.explosionForce. -/
def explosionForce : ℝ := 3.5

/-- CONFIG.formationSpeed. -/
def formationSpeed : ℝ := 0.025

/-- One particle: one slot of the four parallel buffers of a system. -/
structure Particle where
  pos : Vec3
  target : Vec3
  color : Color3
  vel : Vec3

/-- Euclidean length of a 3-vector, as `Math.sqrt(x*x + y*y + z*z)`. -/
def norm3 (v : Vec3) : ℝ := Real.sqrt (v.x * v.x + v.y * v.y + v.z * v.z)

/-- Dot product of two 3-vectors. -/
def dot3 (a b : Vec3) : ℝ := a.x * b.x + a.y * b.y + a.z * b.z

/-- `getHeartPoint(t)` from main.js: the parametric heart curve. -/
def getHeartPoint (t : ℝ) : ℝ × ℝ :=
  (16 * Real.sin t ^ 3,
   13 * Real.cos t - 5 * Real.cos (2 * t) - 2 * Real.cos (3 * t) - Real.cos (4 * t))

/-- The `Math.random()` draws consumed for one particle by the body of the
initializer loop in `createParticleSystem`, one field per call site, each a
real in [0, 1) for a valid draw. -/
structure InitRand where
  rT : ℝ
  rScale : ℝ
  rAuraScale : ℝ
  rNoiseX : ℝ
  rNoiseY : ℝ
  rNoiseZ : ℝ
  rColor : ℝ
  rPosX : ℝ
  rPosY : ℝ
  rPosZ : ℝ

/-- All draws of one particle lie in [0, 1), as `Math.random()` guarantees. -/
def validRand (d : InitRand) : Prop :=
  (0 ≤ d.rT ∧ d.rT < 1) ∧ (0 ≤ d.rScale ∧ d.rScale < 1) ∧
  (0 ≤ d.rAuraScale ∧ d.rAuraScale < 1) ∧ (0 ≤ d.rNoiseX ∧ d.rNoiseX < 1) ∧
  (0 ≤ d.rNoiseY ∧ d.rNoiseY < 1) ∧ (0 ≤ d.rNoiseZ ∧ d.rNoiseZ < 1) ∧
  (0 ≤ d.rColor ∧ d.rColor < 1) ∧ (0 ≤ d.rPosX ∧ d.rPosX < 1) ∧
  (0 ≤ d.rPosY ∧ d.rPosY < 1) ∧ (0 ≤ d.rPosZ ∧ d.rPosZ < 1)

/-- One iteration of the particle loop of `createParticleSystem` in main.js:
curve sample, volumetric scatter, colour classification, random start
position, zero velocity. -/
def initParticle (d : InitRand) (isAura : Bool) : Particle :=
  let t := d.rT * Real.pi * 2
  let p := getHeartPoint t
  let scale := if isAura then 1.0 + d.rAuraScale * 0.4 else 0.8 + d.rScale ^ 3 * 0.2
  let spread : ℝ := if isAura then 4.0 else 1.5
  let noiseX := (d.rNoiseX - 0.5) * spread
  let noiseY := (d.rNoiseY - 0.5) * spread
  let noiseZ := (d.rNoiseZ - 0.5) * (if isAura then 12 else 5)
  let tx := p.1 * scale + noiseX
  let ty := p.2 * scale + noiseY
  let tz := noiseZ
  let c :=
    if isAura then
      lerpC auraColor innerColor (d.rColor * 0.5)
    else
      let dist := Real.sqrt (tx * tx + ty * ty)
      if |tx| < 2 ∧ ty > 0 then
        lerpC innerColor whiteColor 0.3
      else if dist > 14 then
        lerpC coreColor outerColor d.rColor
      else
        smulC coreColor (0.8 + d.rColor * 0.4)
  { pos := ⟨(d.rPosX - 0.5) * 300, (d.rPosY - 0.5) * 300, (d.rPosZ - 0.5) * 300⟩,
    target := ⟨tx, ty, tz⟩,
    color := c,
    vel := ⟨0, 0, 0⟩ }

/-- `createParticleSystem` restricted to its simulation content: the list of
particles produced from the given per-particle draws (count = length of the
draw list). -/
def createParticleSystem (draws : List InitRand) (isAura : Bool) : List Particle :=
  draws.map (fun d => initParticle d isAura)

/-- The body of the `explode` loop in main.js for one particle: an outward
impulse added to the velocity, `r` being the `Math.random()` draw. -/
def explodeParticle (r : ℝ) (p : Particle) : Particle :=
  let x := p.pos.x
  let y := p.pos.y
  let z := p.pos.z
  let len0 := Real.sqrt (x * x + y * y + z * z)
  let len := if len0 = 0 then 1 else len0
  let force := r * explosionForce + 1
  { p with vel := ⟨p.vel.x + x / len * force,
                   p.vel.y + y / len * force,
                   p.vel.z + z / len * force⟩ }

/-- The body of the `animateSystem` loop in main.js for one particle:
velocity integration, damping, breathing offset, gated homing. -/
def stepParticle (time : ℝ) (p : Particle) : Particle :=
  let px := p.pos.x + p.vel.x
  let py := p.pos.y + p.vel.y
  let pz := p.pos.z + p.vel.z
  let vx := p.vel.x * 0.94
  let vy := p.vel.y * 0.94
  let vz := p.vel.z * 0.94
  let tx := p.target.x
  let ty := p.target.y
  let tz := p.target.z
  let breath := Real.sin (time * 1.5 + tx * 0.1) * 0.5
  if |vx| < 0.1 then
    { p with
      pos := ⟨px + (tx - px) * formationSpeed,
              py + (ty - py) * formationSpeed,
              pz + (tz + breath - pz) * formationSpeed⟩,
      vel := ⟨vx, vy, vz⟩ }
  else
    { p with pos := ⟨px, py, pz⟩, vel := ⟨vx, vy, vz⟩ }

/-- The damping sub-step of the integrator (`velocity *= 0.94` on each axis). -/
def dampVel (v : Vec3) : Vec3 := ⟨v.x * 0.94, v.y * 0.94, v.z * 0.94⟩

/-- `n` consecutive damping ticks with no further impulses. -/
def dampIter : ℕ → Vec3 → Vec3
  | 0, v => v
  | n + 1, v => dampVel (dampIter n v)

/-- A particle system as `animateSystem` sees it: the particle buffers plus
the mesh rotation angle it rewrites each frame. -/
structure PSystem where
  particles : List Particle
  rotationY : ℝ

/-- `animateSystem(system, time)` from main.js: per-particle integration pass,
then `rotation.y = sin(time*0.2)*0.15`. -/
def animateSystem (time : ℝ) (s : PSystem) : PSystem :=
  { particles := s.particles.map (stepParticle time),
    rotationY := Real.sin (time * 0.2) * 0.15 }

/-- One externally triggered operation on a particle after initialization:
a frame of the integrator, or one impulse-generator visit with its draw. -/
inductive SimOp where
  | tick (time : ℝ)
  | impulse (r : ℝ)

/-- Apply one operation to one particle. -/
def applySimOp : SimOp → Particle → Particle
  | .tick time, p => stepParticle time p
  | .impulse r, p => explodeParticle r p

/-- Run a sequence of operations left to right. -/
def runSimOps (ops : List SimOp) (p : Particle) : Particle :=
  ops.foldl (fun q o => applySimOp o q) p

/-- The integrator step as the spec words it: position += velocity per axis,
then velocity *= 0.94 per axis, then the breathing offset, then — only when
the damped x-velocity has absolute value below 0.1 — a blend of position
toward (target.x, target.y, target.z + breath) by `formationSpeed` on every
axis; otherwise homing is skipped entirely. -/
def stepSpecC1 (time : ℝ) (p : Particle) : Particle :=
  let pos1 : Vec3 := ⟨p.pos.x + p.vel.x, p.pos.y + p.vel.y, p.pos.z + p.vel.z⟩
  let vel1 : Vec3 := ⟨p.vel.x * 0.94, p.vel.y * 0.94, p.vel.z * 0.94⟩
  let breath := Real.sin (time * 1.5 + p.target.x * 0.1) * 0.5
  let homingTarget : Vec3 := ⟨p.target.x, p.target.y, p.target.z + breath⟩
  let pos2 : Vec3 :=
    if |vel1.x| < 0.1 then
      ⟨pos1.x + (homingTarget.x - pos1.x) * formationSpeed,
       pos1.y + (homingTarget.y - pos1.y) * formationSpeed,
       pos1.z + (homingTarget.z - pos1.z) * formationSpeed⟩
    else pos1
  { p with pos := pos2, vel := vel1 }

/-- The colour classifier as the spec words it, applied to a 2D point
(a, b) and a uniform draw: inner blended 70/30 toward white at the top dip,
core blended toward outer past radius 14, else core scaled by a brightness
factor 0.8 + draw * 0.4. -/
def specColorClassify (a b rnd : ℝ) : Color3 :=
  if |a| < 2 ∧ b > 0 then
    lerpC innerColor whiteColor 0.3
  else if Real.sqrt (a * a + b * b) > 14 then
    lerpC coreColor outerColor rnd
  else
    smulC coreColor (0.8 + rnd * 0.4)

/-- A particle resting at the origin with zero velocity. -/
def pOriginW : Particle :=
  ⟨⟨0, 0, 0⟩, ⟨0, 0, 0⟩, ⟨0, 0, 0⟩, ⟨0, 0, 0⟩⟩

/-- A particle at unit distance from the origin along x, zero velocity. -/
def pUnitW : Particle :=
  ⟨⟨1, 0, 0⟩, ⟨0, 0, 0⟩, ⟨0, 0, 0⟩, ⟨0, 0, 0⟩⟩

/-- The all-zeroes draw record (a valid draw). -/
def dZeroW : InitRand := ⟨0, 0, 0, 0, 0, 0, 0, 0, 0, 0⟩

/-- A concrete valid draw record: the curve parameter draw is 1/4 (so
t = π/2 and the curve sample is (16, 4)), every other draw is 0. -/
def dQuarterW : InitRand := ⟨1 / 4, 0, 0, 0, 0, 0, 0, 0, 0, 0⟩

end

/-- The integrator step leaves the particle's target and colour untouched. -/
theorem stepParticle_target_color (time : ℝ) (p : Particle) :
    (stepParticle time p).target = p.target ∧ (stepParticle time p).color = p.color := by
  unfold stepParticle
  dsimp only
  split <;> exact ⟨rfl, rfl⟩

/-- C8: for every parameter t, the Shape Sampler returns exactly
x = 16·sin(t)³ and y = 13·cos t − 5·cos 2t − 2·cos 3t − cos 4t, as a pure
total function of t. -/
theorem getHeartPoint_formula (t : ℝ) :
    getHeartPoint t =
      (16 * Real.sin t ^ 3,
       13 * Real.cos t - 5 * Real.cos (2 * t) - 2 * Real.cos (3 * t) - Real.cos (4 * t)) :=
  rfl

/-- C1: the integrator step of the source performs exactly the sequence the
spec describes: velocity integration, damping, breathing offset, then homing
on all three axes gated solely by the damped x-velocity, skipped entirely
when the gate fails. -/
theorem stepParticle_matches_spec (time : ℝ) (p : Particle) :
    stepParticle time p = stepSpecC1 time p := by
  unfold stepParticle stepSpecC1
  dsimp only
  split <;> rfl

/-- C5: when a particle sits exactly at the origin, the impulse generator's
length guard substitutes 1 for the zero length, and the call leaves the
particle (in particular its velocity) unchanged. -/
theorem explode_at_origin (r : ℝ) (p : Particle) (hp : p.pos = ⟨0, 0, 0⟩) :
    (if Real.sqrt (p.pos.x * p.pos.x + p.pos.y * p.pos.y + p.pos.z * p.pos.z) = 0 then (1 : ℝ)
     else Real.sqrt (p.pos.x * p.pos.x + p.pos.y * p.pos.y + p.pos.z * p.pos.z)) = 1 ∧
    explodeParticle r p = p := by
  constructor
  · rw [hp]
    norm_num
  · obtain ⟨pos, tar, col, vel⟩ := p
    obtain ⟨vx, vy, vz⟩ := vel
    have hp' : pos = ⟨0, 0, 0⟩ := hp
    subst hp'
    simp [explodeParticle]

/-- Witness for C5 at the concrete particle `pOriginW` with draw 1/2. -/
theorem explode_at_origin_witness :
    pOriginW.pos = ⟨0, 0, 0⟩ ∧
    ((if Real.sqrt (pOriginW.pos.x * pOriginW.pos.x + pOriginW.pos.y * pOriginW.pos.y +
          pOriginW.pos.z * pOriginW.pos.z) = 0 then (1 : ℝ)
      else Real.sqrt (pOriginW.pos.x * pOriginW.pos.x + pOriginW.pos.y * pOriginW.pos.y +
          pOriginW.pos.z * pOriginW.pos.z)) = 1 ∧
     explodeParticle (1 / 2) pOriginW = pOriginW) :=
  ⟨rfl, explode_at_origin (1 / 2) pOriginW rfl⟩

/-- C6: across any sequence of integrator ticks and impulses, a particle's
target and colour never change, and a single impulse also leaves the
position unchanged (it mutates only velocity). -/
theorem sim_preserves_target_color :
    (∀ (ops : List SimOp) (p : Particle),
        (runSimOps ops p).target = p.target ∧ (runSimOps ops p).color = p.color) ∧
    (∀ (r : ℝ) (p : Particle),
        (explodeParticle r p).pos = p.pos ∧ (explodeParticle r p).target = p.target ∧
        (explodeParticle r p).color = p.color) := by
  constructor
  · intro ops
    induction ops with
    | nil => intro p; exact ⟨rfl, rfl⟩
    | cons o rest ih =>
      intro p
      have hstep : (applySimOp o p).target = p.target ∧ (applySimOp o p).color = p.color := by
        cases o with
        | tick time => exact stepParticle_target_color time p
        | impulse r => exact ⟨rfl, rfl⟩
      have hrest := ih (applySimOp o p)
      have hcons : runSimOps (o :: rest) p = runSimOps rest (applySimOp o p) := rfl
      rw [hcons]
      exact ⟨hrest.1.trans hstep.1, hrest.2.trans hstep.2⟩
  · intro r p
    exact ⟨rfl, rfl, rfl⟩

/-- C4: after initialization from any list of valid draws, every particle has
velocity exactly (0,0,0) and a position inside [-150,150] on each axis. -/
theorem createParticleSystem_init_bounds (draws : List InitRand) (isAura : Bool)
    (h : ∀ d ∈ draws, validRand d) :
    ∀ p ∈ createParticleSystem draws isAura,
      p.vel = ⟨0, 0, 0⟩ ∧
      (-150 ≤ p.pos.x ∧ p.pos.x ≤ 150) ∧ (-150 ≤ p.pos.y ∧ p.pos.y ≤ 150) ∧
      (-150 ≤ p.pos.z ∧ p.pos.z ≤ 150) := by
  intro p hp
  rw [createParticleSystem, List.mem_map] at hp
  obtain ⟨d, hd, rfl⟩ := hp
  obtain ⟨_, _, _, _, _, _, _, hx, hy, hz⟩ := h d hd
  refine ⟨rfl, ⟨?_, ?_⟩, ⟨?_, ?_⟩, ⟨?_, ?_⟩⟩ <;>
    · simp only [initParticle]
      linarith [hx.1, hx.2, hy.1, hy.2, hz.1, hz.2]

/-- Witness for C4: the singleton system drawn from the all-zeroes record. -/
theorem createParticleSystem_init_bounds_witness :
    (∀ d ∈ [dZeroW], validRand d) ∧
    (∀ p ∈ createParticleSystem [dZeroW] false,
      p.vel = ⟨0, 0, 0⟩ ∧
      (-150 ≤ p.pos.x ∧ p.pos.x ≤ 150) ∧ (-150 ≤ p.pos.y ∧ p.pos.y ≤ 150) ∧
      (-150 ≤ p.pos.z ∧ p.pos.z ≤ 150)) := by
  have h : ∀ d ∈ [dZeroW], validRand d := by
    intro d hd
    simp only [List.mem_singleton] at hd
    subst hd
    norm_num [validRand, dZeroW]
  exact ⟨h, createParticleSystem_init_bounds [dZeroW] false h⟩

/-- The magnitude of a damped velocity is 0.94 times the original magnitude. -/
theorem norm3_dampVel (v : Vec3) : norm3 (dampVel v) = 0.94 * norm3 v := by
  unfold norm3 dampVel
  dsimp only
  have h : v.x * 0.94 * (v.x * 0.94) + v.y * 0.94 * (v.y * 0.94) + v.z * 0.94 * (v.z * 0.94)
      = (0.94 : ℝ) ^ 2 * (v.x * v.x + v.y * v.y + v.z * v.z) := by ring
  rw [h, Real.sqrt_mul (by positivity), Real.sqrt_sq (by norm_num)]

/-- After n damping ticks the magnitude is 0.94ⁿ times the original. -/
theorem norm3_dampIter (n : ℕ) (v : Vec3) :
    norm3 (dampIter n v) = 0.94 ^ n * norm3 v := by
  induction n with
  | zero => simp [dampIter]
  | succ n ih => rw [dampIter, norm3_dampVel, ih]; ring

/-- C7: for every initial velocity and every ε > 0, finitely many damping
ticks drive the velocity magnitude below ε, and the magnitude never
increases from one tick to the next. -/
theorem damping_convergence (v : Vec3) (ε : ℝ) (hε : 0 < ε) :
    (∃ n : ℕ, norm3 (dampIter n v) < ε) ∧
    (∀ n : ℕ, norm3 (dampIter (n + 1) v) ≤ norm3 (dampIter n v)) := by
  have hnorm : 0 ≤ norm3 v := Real.sqrt_nonneg _
  constructor
  · have hpos : (0 : ℝ) < norm3 v + 1 := by linarith
    obtain ⟨n, hn⟩ :=
      exists_pow_lt_of_lt_one (div_pos hε hpos) (by norm_num : (0.94 : ℝ) < 1)
    refine ⟨n, ?_⟩
    rw [norm3_dampIter]
    have h1 : (0.94 : ℝ) ^ n * norm3 v ≤ 0.94 ^ n * (norm3 v + 1) :=
      mul_le_mul_of_nonneg_left (by linarith) (by positivity)
    have h2 : (0.94 : ℝ) ^ n * (norm3 v + 1) < ε / (norm3 v + 1) * (norm3 v + 1) :=
      mul_lt_mul_of_pos_right hn hpos
    have h3 : ε / (norm3 v + 1) * (norm3 v + 1) = ε := div_mul_cancel₀ ε (ne_of_gt hpos)
    linarith
  · intro n
    rw [norm3_dampIter, norm3_dampIter]
    have hle : (0.94 : ℝ) ^ (n + 1) ≤ 0.94 ^ n :=
      pow_le_pow_of_le_one (by norm_num) (by norm_num) (Nat.le_succ n)
    nlinarith

/-- Witness for C7 at velocity (3, 4, 12) and ε = 1. -/
theorem damping_convergence_witness :
    (0 : ℝ) < 1 ∧
    ((∃ n : ℕ, norm3 (dampIter n ⟨3, 4, 12⟩) < 1) ∧
     (∀ n : ℕ, norm3 (dampIter (n + 1) ⟨3, 4, 12⟩) ≤ norm3 (dampIter n ⟨3, 4, 12⟩))) :=
  ⟨by norm_num, damping_convergence ⟨3, 4, 12⟩ 1 (by norm_num)⟩

/-- The pos/vel output of the integrator step depends only on the pos,
target and vel of the input particle. -/
theorem stepParticle_posvel_congr (time : ℝ) (a b : Particle)
    (hpos : a.pos = b.pos) (htar : a.target = b.target) (hvel : a.vel = b.vel) :
    (stepParticle time a).pos = (stepParticle time b).pos ∧
    (stepParticle time a).vel = (stepParticle time b).vel := by
  simp only [stepParticle]
  rw [hpos, htar, hvel]
  split_ifs with hgate <;> exact ⟨rfl, rfl⟩

/-- Mapping the integrator step over two particle lists with equal
(pos, target, vel) projections yields equal (pos, vel) projections. -/
theorem map_stepParticle_congr (time : ℝ) (l1 : List Particle) :
    ∀ l2 : List Particle,
      l1.map (fun p => (p.pos, p.target, p.vel)) = l2.map (fun p => (p.pos, p.target, p.vel)) →
      (l1.map (stepParticle time)).map (fun p => (p.pos, p.vel))
        = (l2.map (stepParticle time)).map (fun p => (p.pos, p.vel)) := by
  induction l1 with
  | nil =>
    intro l2 h
    cases l2 with
    | nil => rfl
    | cons b l2 => simp at h
  | cons a l1 ih =>
    intro l2 h
    cases l2 with
    | nil => simp at h
    | cons b l2 =>
      simp only [List.map_cons, List.cons.injEq] at h
      obtain ⟨hhead, htail⟩ := h
      have h3 : a.pos = b.pos ∧ a.target = b.target ∧ a.vel = b.vel := by
        simpa [Prod.ext_iff] using hhead
      have hc := stepParticle_posvel_congr time a b h3.1 h3.2.1 h3.2.2
      simp only [List.map_cons, List.cons.injEq]
      exact ⟨by simp [Prod.ext_iff, hc.1, hc.2], ih l2 htail⟩

/-- C10: the per-frame step is deterministic and consumes no randomness:
two systems agreeing on position, target and velocity buffers produce, at
the same elapsed time, equal position and velocity buffers and the same
rotation angle. -/
theorem animateSystem_deterministic (time : ℝ) (s1 s2 : PSystem)
    (h : s1.particles.map (fun p => (p.pos, p.target, p.vel))
        = s2.particles.map (fun p => (p.pos, p.target, p.vel))) :
    (animateSystem time s1).particles.map (fun p => (p.pos, p.vel))
      = (animateSystem time s2).particles.map (fun p => (p.pos, p.vel)) ∧
    (animateSystem time s1).rotationY = (animateSystem time s2).rotationY := by
  exact ⟨map_stepParticle_congr time s1.particles s2.particles h, rfl⟩

/-- Witness for C10: two systems with the same (empty) particle buffers but
different stored rotation still produce identical results. -/
theorem animateSystem_deterministic_witness :
    ((⟨[pUnitW], 0⟩ : PSystem).particles.map (fun p => (p.pos, p.target, p.vel))
      = (⟨[pUnitW], 1⟩ : PSystem).particles.map (fun p => (p.pos, p.target, p.vel))) ∧
    ((animateSystem 0 ⟨[pUnitW], 0⟩).particles.map (fun p => (p.pos, p.vel))
       = (animateSystem 0 ⟨[pUnitW], 1⟩).particles.map (fun p => (p.pos, p.vel)) ∧
     (animateSystem 0 ⟨[pUnitW], 0⟩).rotationY = (animateSystem 0 ⟨[pUnitW], 1⟩).rotationY) :=
  ⟨rfl, animateSystem_deterministic 0 ⟨[pUnitW], 0⟩ ⟨[pUnitW], 1⟩ rfl⟩

/-- The first component of the Shape Sampler output, spelled out. -/
theorem getHeartPoint_fst (t : ℝ) : (getHeartPoint t).1 = 16 * Real.sin t ^ 3 := rfl

/-- The second component of the Shape Sampler output, spelled out. -/
theorem getHeartPoint_snd (t : ℝ) :
    (getHeartPoint t).2 =
      13 * Real.cos t - 5 * Real.cos (2 * t) - 2 * Real.cos (3 * t) - Real.cos (4 * t) := rfl

/-- C9 counterexample: at t = π (inside [0, 2π)) the Shape Sampler's
y-output is −17, which is not ≥ −1 as the claim's interval [−1, 26]
requires. -/
theorem getHeartPoint_y_escapes_claimed_interval :
    0 ≤ Real.pi ∧ Real.pi < 2 * Real.pi ∧ ¬(-1 ≤ (getHeartPoint Real.pi).2) := by
  have hy : (getHeartPoint Real.pi).2 = -17 := by
    rw [getHeartPoint_snd]
    have h3 : Real.cos (3 * Real.pi) = -1 := by
      rw [show (3 : ℝ) * Real.pi = Real.pi + 2 * Real.pi by ring, Real.cos_add_two_pi,
        Real.cos_pi]
    have h4 : Real.cos (4 * Real.pi) = 1 := by
      rw [show (4 : ℝ) * Real.pi = 2 * Real.pi + 2 * Real.pi by ring, Real.cos_add_two_pi,
        Real.cos_two_pi]
    rw [Real.cos_pi, Real.cos_two_pi, h3, h4]
    norm_num
  refine ⟨Real.pi_pos.le, by linarith [Real.pi_pos], ?_⟩
  rw [hy]
  norm_num

/-- C9 (amended): for all t in [0, 2π), |x| ≤ 16 and y lies in [−17, 26]. -/
theorem getHeartPoint_bounded (t : ℝ) (h0 : 0 ≤ t) (h1 : t < 2 * Real.pi) :
    |(getHeartPoint t).1| ≤ 16 ∧
    -17 ≤ (getHeartPoint t).2 ∧ (getHeartPoint t).2 ≤ 26 := by
  have hs1 : -1 ≤ Real.sin t := Real.neg_one_le_sin t
  have hs2 : Real.sin t ≤ 1 := Real.sin_le_one t
  have hc1 : -1 ≤ Real.cos t := Real.neg_one_le_cos t
  have hc2 : Real.cos t ≤ 1 := Real.cos_le_one t
  refine ⟨?_, ?_, ?_⟩
  · rw [getHeartPoint_fst]
    have ha : (0 : ℝ) ≤ 1 + Real.sin t + Real.sin t ^ 2 := by
      nlinarith [sq_nonneg (2 * Real.sin t + 1)]
    have hb : (0 : ℝ) ≤ 1 - Real.sin t + Real.sin t ^ 2 := by
      nlinarith [sq_nonneg (2 * Real.sin t - 1)]
    have hcube1 : Real.sin t ^ 3 ≤ 1 := by
      nlinarith [mul_nonneg (by linarith : (0 : ℝ) ≤ 1 - Real.sin t) ha]
    have hcube2 : -1 ≤ Real.sin t ^ 3 := by
      nlinarith [mul_nonneg (by linarith : (0 : ℝ) ≤ 1 + Real.sin t) hb]
    rw [abs_le]
    constructor <;> linarith
  · rw [getHeartPoint_snd]
    have h2t : Real.cos (2 * t) = 2 * Real.cos t ^ 2 - 1 := Real.cos_two_mul t
    have h3t : Real.cos (3 * t) = 4 * Real.cos t ^ 3 - 3 * Real.cos t := Real.cos_three_mul t
    have h4t : Real.cos (4 * t) = 2 * (2 * Real.cos t ^ 2 - 1) ^ 2 - 1 := by
      rw [show (4 : ℝ) * t = 2 * (2 * t) by ring, Real.cos_two_mul, h2t]
    rw [h2t, h3t, h4t]
    have h1c : (0 : ℝ) ≤ 1 + Real.cos t + Real.cos t ^ 2 := by
      nlinarith [sq_nonneg (2 * Real.cos t + 1)]
    have hcube : Real.cos t ^ 3 ≤ 1 := by
      nlinarith [mul_nonneg (by linarith : (0 : ℝ) ≤ 1 - Real.cos t) h1c]
    have hg : (0 : ℝ) ≤ -8 * Real.cos t ^ 3 - 2 * Real.cos t + 21 := by linarith
    have hfac : (0 : ℝ) ≤ (Real.cos t + 1) * (-8 * Real.cos t ^ 3 - 2 * Real.cos t + 21) :=
      mul_nonneg (by linarith) hg
    nlinarith [hfac]
  · rw [getHeartPoint_snd]
    have h2 := Real.neg_one_le_cos (2 * t)
    have h3 := Real.neg_one_le_cos (3 * t)
    have h4 := Real.neg_one_le_cos (4 * t)
    linarith

/-- Witness for the amended C9 at t = 0. -/
theorem getHeartPoint_bounded_witness :
    (0 : ℝ) ≤ 0 ∧ (0 : ℝ) < 2 * Real.pi ∧
    (|(getHeartPoint 0).1| ≤ 16 ∧
     -17 ≤ (getHeartPoint 0).2 ∧ (getHeartPoint 0).2 ≤ 26) :=
  ⟨le_refl 0, by positivity, getHeartPoint_bounded 0 (le_refl 0) (by positivity)⟩

/-- A 3-vector away from the origin has positive squared length. -/
theorem possq_pos (v : Vec3) (h : v ≠ ⟨0, 0, 0⟩) :
    0 < v.x * v.x + v.y * v.y + v.z * v.z := by
  obtain ⟨x, y, z⟩ := v
  by_contra hle
  push_neg at hle
  have hx : x * x = 0 :=
    le_antisymm (by nlinarith [mul_self_nonneg x, mul_self_nonneg y, mul_self_nonneg z])
      (mul_self_nonneg x)
  have hy : y * y = 0 :=
    le_antisymm (by nlinarith [mul_self_nonneg x, mul_self_nonneg y, mul_self_nonneg z])
      (mul_self_nonneg y)
  have hz : z * z = 0 :=
    le_antisymm (by nlinarith [mul_self_nonneg x, mul_self_nonneg y, mul_self_nonneg z])
      (mul_self_nonneg z)
  exact h (by rw [mul_self_eq_zero.mp hx, mul_self_eq_zero.mp hy, mul_self_eq_zero.mp hz])

/-- Away from the origin the impulse generator adds the normalized position
scaled by the drawn force to the velocity, component-wise. -/
theorem explodeParticle_vel (r : ℝ) (p : Particle) (hp : p.pos ≠ ⟨0, 0, 0⟩) :
    (explodeParticle r p).vel =
      ⟨p.vel.x + p.pos.x / norm3 p.pos * (r * explosionForce + 1),
       p.vel.y + p.pos.y / norm3 p.pos * (r * explosionForce + 1),
       p.vel.z + p.pos.z / norm3 p.pos * (r * explosionForce + 1)⟩ := by
  have hlen0 : ¬ Real.sqrt (p.pos.x * p.pos.x + p.pos.y * p.pos.y + p.pos.z * p.pos.z) = 0 :=
    ne_of_gt (Real.sqrt_pos.mpr (possq_pos p.pos hp))
  simp only [explodeParticle, norm3, if_neg hlen0]

/-- C2 counterexample: for a particle at the origin, two impulse calls give
exactly the same outward velocity (dot of velocity with position) as one
call, so the outward velocity is not strictly larger. -/
theorem explode_twice_not_larger_at_origin :
    ¬ (dot3 (explodeParticle 0 (explodeParticle 0 pOriginW)).vel pOriginW.pos
        > dot3 (explodeParticle 0 pOriginW).vel pOriginW.pos) := by
  have h1 : explodeParticle 0 pOriginW = pOriginW := by
    simp [explodeParticle, pOriginW]
  rw [h1, h1]
  exact lt_irrefl _

/-- C2 (amended): for every particle with nonzero position, one impulse call
adds force · (position / ‖position‖) to the velocity with the force drawn in
[1, 1 + explosionForce) and explosionForce = 3.5; the velocity change points
outward (its dot with the position is ≥ 0); and a second call from the same
positions makes the outward velocity strictly larger. -/
theorem explode_impulse_outward (p : Particle) (r1 r2 : ℝ)
    (h1 : 0 ≤ r1) (h1' : r1 < 1) (h2 : 0 ≤ r2) (h2' : r2 < 1)
    (hp : p.pos ≠ ⟨0, 0, 0⟩) :
    (explosionForce = 3.5 ∧
     1 ≤ r1 * explosionForce + 1 ∧ r1 * explosionForce + 1 < 1 + explosionForce) ∧
    (explodeParticle r1 p).vel =
      ⟨p.vel.x + p.pos.x / norm3 p.pos * (r1 * explosionForce + 1),
       p.vel.y + p.pos.y / norm3 p.pos * (r1 * explosionForce + 1),
       p.vel.z + p.pos.z / norm3 p.pos * (r1 * explosionForce + 1)⟩ ∧
    0 ≤ dot3 ⟨(explodeParticle r1 p).vel.x - p.vel.x,
              (explodeParticle r1 p).vel.y - p.vel.y,
              (explodeParticle r1 p).vel.z - p.vel.z⟩ p.pos ∧
    dot3 (explodeParticle r2 (explodeParticle r1 p)).vel p.pos
      > dot3 (explodeParticle r1 p).vel p.pos := by
  have hsq := possq_pos p.pos hp
  have hlen : 0 < norm3 p.pos := Real.sqrt_pos.mpr hsq
  have hlenne : norm3 p.pos ≠ 0 := ne_of_gt hlen
  have hF1 : 0 < r1 * explosionForce + 1 := by
    simp only [explosionForce]
    nlinarith
  have hF2 : 0 < r2 * explosionForce + 1 := by
    simp only [explosionForce]
    nlinarith
  have hv1 := explodeParticle_vel r1 p hp
  have hqpos : (explodeParticle r1 p).pos = p.pos := rfl
  have hqne : (explodeParticle r1 p).pos ≠ ⟨0, 0, 0⟩ := hp
  have hv2 := explodeParticle_vel r2 (explodeParticle r1 p) hqne
  refine ⟨⟨rfl, ?_, ?_⟩, hv1, ?_, ?_⟩
  · simp only [explosionForce]
    nlinarith
  · simp only [explosionForce]
    nlinarith
  · have hdiff : dot3 ⟨(explodeParticle r1 p).vel.x - p.vel.x,
        (explodeParticle r1 p).vel.y - p.vel.y,
        (explodeParticle r1 p).vel.z - p.vel.z⟩ p.pos
        = (r1 * explosionForce + 1) *
          (p.pos.x * p.pos.x + p.pos.y * p.pos.y + p.pos.z * p.pos.z) / norm3 p.pos := by
      rw [hv1]
      simp only [dot3]
      field_simp
      ring
    rw [hdiff]
    exact div_nonneg (mul_nonneg hF1.le hsq.le) hlen.le
  · have hd2 : dot3 (explodeParticle r2 (explodeParticle r1 p)).vel p.pos
        = dot3 (explodeParticle r1 p).vel p.pos
          + (r2 * explosionForce + 1) *
            (p.pos.x * p.pos.x + p.pos.y * p.pos.y + p.pos.z * p.pos.z) / norm3 p.pos := by
      rw [hv2]
      simp only [hqpos, dot3]
      field_simp
      ring
    rw [hd2]
    have hgain := div_pos (mul_pos hF2 hsq) hlen
    linarith

/-- Witness for the amended C2 at the concrete particle `pUnitW` with both
draws equal to 0. -/
theorem explode_impulse_outward_witness :
    ((0 : ℝ) ≤ 0 ∧ (0 : ℝ) < 1 ∧ pUnitW.pos ≠ ⟨0, 0, 0⟩) ∧
    ((explosionForce = 3.5 ∧
      1 ≤ 0 * explosionForce + 1 ∧ 0 * explosionForce + 1 < 1 + explosionForce) ∧
     (explodeParticle 0 pUnitW).vel =
       ⟨pUnitW.vel.x + pUnitW.pos.x / norm3 pUnitW.pos * (0 * explosionForce + 1),
        pUnitW.vel.y + pUnitW.pos.y / norm3 pUnitW.pos * (0 * explosionForce + 1),
        pUnitW.vel.z + pUnitW.pos.z / norm3 pUnitW.pos * (0 * explosionForce + 1)⟩ ∧
     0 ≤ dot3 ⟨(explodeParticle 0 pUnitW).vel.x - pUnitW.vel.x,
               (explodeParticle 0 pUnitW).vel.y - pUnitW.vel.y,
               (explodeParticle 0 pUnitW).vel.z - pUnitW.vel.z⟩ pUnitW.pos ∧
     dot3 (explodeParticle 0 (explodeParticle 0 pUnitW)).vel pUnitW.pos
       > dot3 (explodeParticle 0 pUnitW).vel pUnitW.pos) := by
  have hne : pUnitW.pos ≠ ⟨0, 0, 0⟩ := fun h => one_ne_zero (congrArg Vec3.x h)
  exact ⟨⟨le_refl 0, by norm_num, hne⟩,
    explode_impulse_outward pUnitW 0 0 (le_refl 0) (by norm_num) (le_refl 0) (by norm_num) hne⟩

/-- The initializer's main-system colour is the classifier applied to the x
and y of the particle's computed target. -/
theorem initParticle_main_color (d : InitRand) :
    (initParticle d false).color =
      specColorClassify (initParticle d false).target.x (initParticle d false).target.y
        d.rColor := by
  simp [initParticle, specColorClassify]

/-- C3 (amended): for every main (non-aura) particle the colour is
classified by the computed target point (tx, ty) — curve sample scaled and
jittered — not by the raw curve sample: inner blended 70/30 toward white
when |tx| < 2 and ty > 0, else core blended toward outer by the draw when
sqrt(tx²+ty²) > 14, else core scaled by 0.8 + draw·0.4. -/
theorem initParticle_color_by_target (d : InitRand) :
    (initParticle d false).color =
      specColorClassify (initParticle d false).target.x (initParticle d false).target.y
        d.rColor :=
  initParticle_main_color d

/-- C3 counterexample: for the concrete valid draw `dQuarterW` the code's
colour differs from the colour the claim's classification by the raw curve
sample (px, py) prescribes. -/
theorem initParticle_color_not_by_curve_sample :
    validRand dQuarterW ∧
    (initParticle dQuarterW false).color ≠
      specColorClassify (getHeartPoint (dQuarterW.rT * Real.pi * 2)).1
        (getHeartPoint (dQuarterW.rT * Real.pi * 2)).2 dQuarterW.rColor := by
  refine ⟨by norm_num [validRand, dQuarterW], ?_⟩
  have ht : dQuarterW.rT * Real.pi * 2 = Real.pi / 2 := by
    show 1 / 4 * Real.pi * 2 = Real.pi / 2
    ring
  have hpt : getHeartPoint (Real.pi / 2) = ((16 : ℝ), (4 : ℝ)) := by
    unfold getHeartPoint
    rw [Real.sin_pi_div_two, Real.cos_pi_div_two]
    rw [show (2 : ℝ) * (Real.pi / 2) = Real.pi by ring, Real.cos_pi]
    rw [show (3 : ℝ) * (Real.pi / 2) = Real.pi + Real.pi / 2 by ring, Real.cos_add,
      Real.cos_pi, Real.sin_pi, Real.cos_pi_div_two, Real.sin_pi_div_two]
    rw [show (4 : ℝ) * (Real.pi / 2) = 2 * Real.pi by ring, Real.cos_two_pi]
    norm_num
  have hx16 : (getHeartPoint (dQuarterW.rT * Real.pi * 2)).1 = 16 := by rw [ht, hpt]
  have hy4 : (getHeartPoint (dQuarterW.rT * Real.pi * 2)).2 = 4 := by rw [ht, hpt]
  have hrC : dQuarterW.rColor = 0 := rfl
  have htx : (initParticle dQuarterW false).target.x = 12.05 := by
    simp only [initParticle, Bool.false_eq_true, if_false]
    rw [hx16]
    show (16 : ℝ) * (0.8 + (0 : ℝ) ^ 3 * 0.2) + ((0 : ℝ) - 0.5) * 1.5 = 12.05
    norm_num
  have hty : (initParticle dQuarterW false).target.y = 2.45 := by
    simp only [initParticle, Bool.false_eq_true, if_false]
    rw [hy4]
    show (4 : ℝ) * (0.8 + (0 : ℝ) ^ 3 * 0.2) + ((0 : ℝ) - 0.5) * 1.5 = 2.45
    norm_num
  have hcode : specColorClassify 12.05 2.45 (0 : ℝ) = smulC coreColor 0.8 := by
    have hA : ¬(|(12.05 : ℝ)| < 2 ∧ (2.45 : ℝ) > 0) := by
      rintro ⟨habs, -⟩
      rw [abs_of_nonneg (by norm_num : (0 : ℝ) ≤ 12.05)] at habs
      norm_num at habs
    have hB : ¬(Real.sqrt ((12.05 : ℝ) * 12.05 + 2.45 * 2.45) > 14) := by
      rw [show (12.05 : ℝ) * 12.05 + 2.45 * 2.45 = 151.205 by norm_num, gt_iff_lt, not_lt,
        show (14 : ℝ) = Real.sqrt 196 by
          rw [show (196 : ℝ) = 14 ^ 2 by norm_num, Real.sqrt_sq (by norm_num : (0 : ℝ) ≤ 14)]]
      exact Real.sqrt_le_sqrt (by norm_num)
    unfold specColorClassify
    rw [if_neg hA, if_neg hB]
    norm_num
  have hclaim : specColorClassify 16 4 (0 : ℝ) = coreColor := by
    have hA : ¬(|(16 : ℝ)| < 2 ∧ (4 : ℝ) > 0) := by
      rintro ⟨habs, -⟩
      rw [abs_of_nonneg (by norm_num : (0 : ℝ) ≤ 16)] at habs
      norm_num at habs
    have hB : Real.sqrt ((16 : ℝ) * 16 + 4 * 4) > 14 := by
      rw [show (16 : ℝ) * 16 + 4 * 4 = 272 by norm_num, gt_iff_lt,
        show (14 : ℝ) = Real.sqrt 196 by
          rw [show (196 : ℝ) = 14 ^ 2 by norm_num, Real.sqrt_sq (by norm_num : (0 : ℝ) ≤ 14)]]
      exact Real.sqrt_lt_sqrt (by norm_num) (by norm_num)
    unfold specColorClassify
    rw [if_neg hA, if_pos hB]
    norm_num [lerpC, coreColor, outerColor]
  rw [initParticle_main_color dQuarterW, htx, hty, hrC, hx16, hy4, hcode, hclaim]
  intro h
  have hr := congrArg Color3.r h
  simp only [smulC, coreColor] at hr
  norm_num at hr
